import Mathlib

/-!
Verification of `extract.py` (banned-books-map).

A shallow embedding of `src/extract.py`, a single-pass pipeline that scans a
fetched Wikipedia page for `table.wikitable` elements, resolves each table's
country (nearest preceding `h2`) and subdivision (nearest preceding `h3`,
accepted only when its own nearest preceding `h2` compares equal to the
country's `h2`), normalizes column headers, fills missing expected columns
with `pd.NA`, cleans rows, concatenates the surviving frames and serializes
them to CSV.

Modeling conventions:
* Python `str.strip()` is modeled by `pstrip`, which removes leading and
  trailing characters satisfying `Char.isWhitespace` (an abstraction of
  Python's whitespace set).
* A pandas cell is `Cell`: a non-numeric text (`str`), a numeric value
  (`num v`, with `v` its `str()` form, which is also what `to_csv`
  writes), `np.nan` (whose `str()` form is `"nan"` but which `to_csv`
  writes as the empty string), or `pd.NA` (whose `str()` form is
  `"<NA>"`).  `pd.read_html` parses every cell as text and converts a
  column to a numeric dtype exactly when all of its values are numeric or
  missing; hence a column has dtype `object` if and only if it holds at
  least one `str` or `NA` cell (`colIsObj`), and the string-cleanup loop
  (`astype(str).str.strip().replace({"nan": ""})`), guarded by
  `df[c].dtype == object`, applies exactly to those columns
  (`cleanRows`).  An all-missing column (e.g. a Title column of empty
  cells) is float64, skips the cleanup, and its `NaN` entries pass the
  title filter as `"nan"` yet serialize as empty strings.
* A fetched document is a `List Node` in document order: `h2` headings,
  `h3` headings, and wikitable nodes.  `tbl none` is a table on which
  `pd.read_html` raises `ValueError`; `tbl (some t)` carries the parsed
  header row and cell rows (rectangular, as `read_html` pads short rows).
* BeautifulSoup's `==` on tags compares markup structurally (name,
  attributes and contents), not object identity; a `Heading` value stands
  for the full markup of a heading element: the two extracted texts used
  by `get_headline_text`, plus `attrs`, the residual markup (tag
  attributes and any further content, e.g. the `mw-headline` span's `id`,
  which Wikipedia makes unique per page).  Heading equality in the model
  is therefore full structural markup equality: two headings with equal
  display text but different ids are distinct.
* Uncaught Python exceptions (the `RuntimeError` for zero surviving tables,
  `ValueError` from `DataFrame.insert` on a duplicate label,
  `AttributeError` from `df[c].dtype` when `c` is a duplicated label,
  `KeyError` from selecting an absent column) are `Except.error`; the CSV
  is produced only on `Except.ok`.
* Duplicate column labels are looked up at their first occurrence
  (`colIdx`); the paths where this matters are guarded by the `Nodup`
  check that models the duplicate-label `AttributeError`.
-/

namespace BannedBooks

/-- Characters removed by Python `str.strip()`: leading and trailing
whitespace. -/
def trimChars (l : List Char) : List Char :=
  ((l.dropWhile Char.isWhitespace).reverse.dropWhile Char.isWhitespace).reverse

/-- Model of Python `str.strip()`. -/
def pstrip (s : String) : String := String.mk (trimChars s.data)

/-- A heading element (`h2` or `h3`): the text of an inner
`span.mw-headline` if present, the heading's own text, and `attrs`, the
residual markup not read by `get_headline_text` — tag attributes and any
further content, such as the headline span's `id`.  A `Heading` value
abstracts the heading's full markup, so equality of `Heading`s models
BeautifulSoup's structural `==` on tags: headings with equal display text
but different attributes compare unequal. -/
structure Heading where
  span : Option String
  ownText : String
  attrs : String
deriving DecidableEq, Repr

/-- Model of `get_headline_text` of `extract.py` (for a non-`None` heading):
prefer the headline span's stripped text, else the heading's own stripped
text, then strip again. -/
def get_headline_text (h : Heading) : String :=
  pstrip (match h.span with
    | some s => pstrip s
    | none => pstrip h.ownText)

/-- Variant of `get_headline_text` including the `None` case. -/
def get_headline_textOpt (h : Option Heading) : Option String :=
  h.map get_headline_text

/-- The housekeeping headings that are not countries (`NON_COUNTRY_H2`). -/
def NON_COUNTRY_H2 : List String :=
  ["See also", "References", "Further reading", "External links", "Notes", "Citations"]

/-- A pandas cell value as it exists in the modeled dataframes: a
non-numeric text, a numeric value (`v` is its `str()` form, which is also
what `to_csv` writes for it), `np.nan`, or `pd.NA`. -/
inductive Cell where
  | str (v : String)
  | num (v : String)
  | nan
  | NA
deriving DecidableEq, Repr

/-- Effect of `astype(str)` on one cell: `str(np.nan) = "nan"`,
`str(pd.NA) = "<NA>"`. -/
def cellToString : Cell → String
  | .str v => v
  | .num v => v
  | .nan => "nan"
  | .NA => "<NA>"

/-- Effect of `to_csv` on one cell: missing values are written with the
default `na_rep`, the empty string. -/
def csvCell : Cell → String
  | .str v => v
  | .num v => v
  | .nan => ""
  | .NA => ""

/-- The per-cell effect of `df[c].astype(str).str.strip().replace({"nan": ""})`. -/
def cleanCell (c : Cell) : String :=
  let s := pstrip (cellToString c)
  if s = "nan" then "" else s

/-- Missing-value test of `dropna`: `np.nan` and `pd.NA` are missing,
strings and numbers are not. -/
def cellIsNA : Cell → Bool
  | .str _ => false
  | .num _ => false
  | _ => true

/-- Whether a cell forces its column onto pandas dtype `object`:
`pd.read_html` converts a column to a numeric dtype exactly when every
value is numeric or `NaN`; strings and the `pd.NA` filler keep it
`object`. -/
def isTextCell : Cell → Bool
  | .str _ => true
  | .NA => true
  | _ => false

/-- A parsed column header: a plain string, or a tuple (pandas MultiIndex
column from stacked header rows). -/
inductive ColHeader where
  | single (s : String)
  | multi (parts : List String)
deriving DecidableEq, Repr

/-- The tuple-flattening step of `normalize_colnames`:
`next((x for x in c if x and x != ""), c[-1])`.  Python raises `IndexError`
on an empty tuple; pandas MultiIndex tuples are nonempty, and the model
returns `""` there. -/
def flattenHeader : ColHeader → String
  | .single s => s
  | .multi parts => ((parts.find? (fun x => x != "")).getD (parts.getLastD ""))

/-- The `ren` lookup table of `normalize_colnames`, in source order. -/
def renPairs : List (String × String) :=
  [("Title ", "Title"), ("Title", "Title"),
   ("Author(s)", "Author(s)"), ("Authors", "Author(s)"),
   ("Year published", "Year published"), ("Year of publication", "Year published"),
   ("Publication year", "Year published"),
   ("Year banned", "Year banned"), ("Year unbanned", "Year unbanned"),
   ("Type", "Type"), ("Notes", "Notes"), ("Reason", "Notes"), ("Reasons", "Notes"),
   ("Publisher", "Publisher"), ("Language", "Language"), ("Genre", "Genre"),
   ("Country", "Country of origin")]

/-- Action of `normalize_colnames` on one column header: flatten a tuple,
then `str(c).strip()`, then the exact-match lookup `ren.get(c, c)`. -/
def normalizeOne (c : ColHeader) : String :=
  let s := pstrip (flattenHeader c)
  (renPairs.lookup s).getD s

/-- Model of `normalize_colnames`. -/
def normalize_colnames (cols : List ColHeader) : List String :=
  cols.map normalizeOne

/-- A wikitable as parsed by `pd.read_html`: the header row and the cell
rows. -/
structure ParsedTable where
  headers : List ColHeader
  rows : List (List Cell)
deriving DecidableEq, Repr

/-- A document node: an `h2` heading, an `h3` heading, or a wikitable
(`tbl none` is a table on which `pd.read_html` raises `ValueError`). -/
inductive Node where
  | h2 (h : Heading)
  | h3 (h : Heading)
  | tbl (t : Option ParsedTable)
deriving DecidableEq, Repr

def isH2 : Node → Bool
  | .h2 _ => true
  | _ => false

def isH3 : Node → Bool
  | .h3 _ => true
  | _ => false

/-- Model of `find_previous`: the largest index `j < i` whose node satisfies `p`. -/
def findPrevIdx (p : Node → Bool) (doc : List Node) : Nat → Option Nat
  | 0 => none
  | i + 1 =>
    match doc[i]? with
    | some n => if p n then some i else findPrevIdx p doc i
    | none => findPrevIdx p doc i

def findPrevH2 (doc : List Node) (i : Nat) : Option Nat := findPrevIdx isH2 doc i

def findPrevH3 (doc : List Node) (i : Nat) : Option Nat := findPrevIdx isH3 doc i

/-- The heading stored at a document position, if any. -/
def headingAt (doc : List Node) (j : Nat) : Option Heading :=
  match doc[j]? with
  | some (.h2 h) => some h
  | some (.h3 h) => some h
  | _ => none

/-- Country resolution: `country = get_headline_text(tbl.find_previous("h2"))`. -/
def resolveCountry (doc : List Node) (i : Nat) : Option String :=
  get_headline_textOpt ((findPrevH2 doc i).bind (headingAt doc))

/-- The subdivision exactly as the code computes it: nearest previous `h3`,
accepted when `h3.find_previous("h2") == h2` under BeautifulSoup's
structural tag equality (with `None == None` true and `None == tag`
false, as in Python). -/
def resolveSubdivision (doc : List Node) (i : Nat) : Option String :=
  match findPrevH3 doc i with
  | none => none
  | some k =>
    let h2v := (findPrevH2 doc i).bind (headingAt doc)
    let h3sH2v := (findPrevH2 doc k).bind (headingAt doc)
    if h3sH2v = h2v then get_headline_textOpt (headingAt doc k) else none

/-- The subdivision resolver as the specification words it: the nearest
preceding `h3` is accepted only if its own nearest preceding `h2` is the
same node (same document position) as the country's `h2`. -/
def subdivisionByNodeIdentity (doc : List Node) (i : Nat) : Option String :=
  match findPrevH3 doc i with
  | none => none
  | some k =>
    match findPrevH2 doc k, findPrevH2 doc i with
    | some j1, some j2 =>
      if j1 = j2 then get_headline_textOpt (headingAt doc k) else none
    | _, _ => none

/-- A processed dataframe after the cleanup loop: all cells are strings. -/
structure Frame where
  cols : List String
  rows : List (List String)
deriving DecidableEq, Repr

/-- The seven expected columns checked by the column-completion step. -/
def expectedCols : List String :=
  ["Title", "Author(s)", "Year published", "Year banned", "Year unbanned", "Type", "Notes"]

/-- The expected columns absent from `cols`, in expected order (the order in
which `df[col] = pd.NA` appends them). -/
def fillMissing (cols : List String) : List String :=
  expectedCols.filter (fun c => !(cols.contains c))

/-- Column list after the column-completion step. -/
def fillExpectedCols (cols : List String) : List String :=
  cols ++ fillMissing cols

/-- Rows after the column-completion step: each row gains a `pd.NA` cell for
every appended column. -/
def fillExpectedRows (cols : List String) (rows : List (List Cell)) : List (List Cell) :=
  rows.map (fun r => r ++ (fillMissing cols).map (fun _ => Cell.NA))

/-- Model of `df.insert(0, name, value)`: raises `ValueError` (here `none`) if the
label already exists, else prepends the column. -/
def insertCol (name : String) (cell : Cell) (cols : List String)
    (rows : List (List Cell)) : Option (List String × List (List Cell)) :=
  if cols.contains name then none
  else some (name :: cols, rows.map (fun r => cell :: r))

/-- The value inserted for Subdivision:
`subdivision if subdivision else pd.NA` (Python truthiness: `None` and `""`
are falsy). -/
def subCell (sub : Option String) : Cell :=
  match sub with
  | some s => if s = "" then Cell.NA else Cell.str s
  | none => Cell.NA

/-- Model of `df.dropna(how="all")`: drop the rows whose every cell is missing. -/
def dropEmptyRows (rows : List (List Cell)) : List (List Cell) :=
  rows.filter (fun r => !(r.all cellIsNA))

/-- The cells of column `i`, read off the row-major representation; absent
entries are the `NaN` padding `pd.read_html` inserts for short rows. -/
def columnAt (rows : List (List Cell)) (i : Nat) : List Cell :=
  rows.map (fun r => r.getD i Cell.nan)

/-- The dtype guard `df[c].dtype == object` of the cleanup loop: column `i`
has dtype `object` iff it holds at least one textual cell. -/
def colIsObj (rows : List (List Cell)) (i : Nat) : Bool :=
  (columnAt rows i).any isTextCell

/-- One row under the string-cleanup loop: the cell of each object-dtype
column is replaced by its stripped string form (with `"nan"` blanked);
cells of non-object columns are left untouched by the
`df[c].dtype == object` guard.  `rows` is the whole dataframe, against
which the per-column dtype is read. -/
def cleanRow (rows : List (List Cell)) (r : List Cell) : List Cell :=
  r.mapIdx (fun i c => if colIsObj rows i then Cell.str (cleanCell c) else c)

/-- The string-cleanup loop over the whole dataframe. -/
def cleanRows (rows : List (List Cell)) : List (List Cell) :=
  rows.map (cleanRow rows)

/-- Index of the first occurrence of a column label (pandas label lookup for
non-duplicated labels). -/
def colIdx : List String → String → Nat
  | [], _ => 0
  | c :: rest, x => if c = x then 0 else colIdx rest x + 1

/-- Title filter: `df = df[df["Title"].astype(str).str.len() > 0]`.  The
`astype(str)` applies to whatever the cleanup left in the column, so an
uncleaned `NaN` reads as `"nan"` (length 3) and is kept. -/
def titleFilter (cols : List String) (rows : List (List Cell)) : List (List Cell) :=
  rows.filter (fun r => cellToString (r.getD (colIdx cols "Title") (Cell.str "")) != "")

/-- The loop body of `main` for the wikitable at position `i` with parse
result `t`.  `ok none` models `continue` (table skipped), `ok (some f)` a
frame appended to `frames`, `error` an uncaught exception aborting the
run. -/
def processTable (doc : List Node) (i : Nat) (t : Option ParsedTable) :
    Except String (Option Frame) :=
  match resolveCountry doc i with
  | none => .ok none
  | some country =>
    if country = "" ∨ country ∈ NON_COUNTRY_H2 then .ok none
    else
      match t with
      | none => .ok none
      | some pt =>
        let sub := resolveSubdivision doc i
        let cols0 := normalize_colnames pt.headers
        let cols1 := fillExpectedCols cols0
        let rows1 := fillExpectedRows cols0 pt.rows
        match insertCol "Subdivision" (subCell sub) cols1 rows1 with
        | none => .error "ValueError: cannot insert Subdivision, already exists"
        | some (cols2, rows2) =>
          match insertCol "Country" (Cell.str country) cols2 rows2 with
          | none => .error "ValueError: cannot insert Country, already exists"
          | some (cols3, rows3) =>
            let rows4 := dropEmptyRows rows3
            if cols3.Nodup then
              .ok (some (Frame.mk cols3
                ((titleFilter cols3 (cleanRows rows4)).map (fun r => r.map csvCell))))
            else .error "AttributeError: duplicate column labels"

/-- The dataframe of an accepted table as it stands right before the
cleanup loop: columns completed, Subdivision and Country prepended, empty
rows dropped. -/
def stagedRows (doc : List Node) (i : Nat) (country : String) (pt : ParsedTable) :
    List (List Cell) :=
  dropEmptyRows ((fillExpectedRows (normalize_colnames pt.headers) pt.rows).map
    (fun w => Cell.str country :: subCell (resolveSubdivision doc i) :: w))

/-- Process the wikitables at the given positions, in order, accumulating
the surviving frames and propagating any uncaught exception. -/
def collectIdx (doc : List Node) : List Nat → Except String (List Frame)
  | [] => .ok []
  | i :: rest =>
    match doc[i]? with
    | some (.tbl t) =>
      (match processTable doc i t with
       | .error e => .error e
       | .ok none => collectIdx doc rest
       | .ok (some f) =>
         match collectIdx doc rest with
         | .error e => .error e
         | .ok fs => .ok (f :: fs))
    | _ => collectIdx doc rest

/-- All surviving frames of the document, in document order of the tables. -/
def collectFrames (doc : List Node) : Except String (List Frame) :=
  collectIdx doc (List.range doc.length)

/-- The nine canonical output columns, in fixed order. -/
def canon9 : List String :=
  ["Country", "Subdivision", "Title", "Author(s)", "Year published",
   "Year banned", "Year unbanned", "Type", "Notes"]

/-- Column order produced by `pd.concat`: the first frame's columns, then
every new column in first-seen order. -/
def concatCols (fs : List Frame) : List String :=
  fs.foldl (fun acc f => acc ++ (f.cols.filter (fun c => !(acc.contains c)))) []

/-- One source row re-indexed to the destination column list; a column the
source frame lacks becomes `NaN`, which `to_csv` writes as the empty
string. -/
def alignRow (srcCols : List String) (row : List String) (dstCols : List String) :
    List String :=
  dstCols.map (fun c => if srcCols.contains c then row.getD (colIdx srcCols c) "" else "")

/-- The diagnostic raised when no tables survive filtering. -/
def noTablesMsg : String :=
  "No tables found under country sections. The page layout may have changed."

/-- Aggregation: `pd.concat(frames, ignore_index=True)` followed by
`out = out[first + rest]`: selecting the canonical columns raises
`KeyError` if one of them is absent. -/
def finalFrame (doc : List Node) : Except String Frame :=
  match collectFrames doc with
  | .error e => .error e
  | .ok fs =>
    if fs.isEmpty then .error noTablesMsg
    else
      let allCols := concatCols fs
      if canon9.all (fun c => allCols.contains c) then
        let ordered := canon9 ++ allCols.filter (fun c => !(canon9.contains c))
        .ok { cols := ordered,
              rows := (fs.map (fun f => f.rows.map (fun r => alignRow f.cols r ordered))).flatten }
      else .error "KeyError: canonical column missing"

/-- Double every double-quote character (CSV escaping). -/
def escQuotes : List Char → List Char
  | [] => []
  | c :: r => if c = '\"' then '\"' :: '\"' :: escQuotes r else c :: escQuotes r

/-- One CSV field, quoted when it contains a delimiter, quote or newline. -/
def csvField (s : String) : String :=
  if s.data.any (fun ch => ch == ',' || ch == '\"' || ch == '\n' || ch == '\r') then
    String.mk (('\"' :: escQuotes s.data) ++ ['\"'])
  else s

/-- One comma-delimited CSV line. -/
def csvLine (cells : List String) : String :=
  String.intercalate (",") (cells.map csvField)

/-- Serialization `out.to_csv(..., index=False)`: a header row followed by the data rows,
no index column. -/
def toCsv (f : Frame) : String :=
  String.intercalate ("\n") (csvLine f.cols :: f.rows.map csvLine) ++ "\n"

/-- The whole run after the fetch: `error` models the process aborting with
an uncaught exception (non-zero exit, no CSV written), `ok` the CSV text
written in full. -/
def runMain (doc : List Node) : Except String String :=
  (finalFrame doc).map toCsv

/-- Convenience predicate: position `m` holds a node satisfying `p`. -/
def matchesAt (p : Node → Bool) (doc : List Node) (m : Nat) : Bool :=
  match doc[m]? with
  | some n => p n
  | none => false

/-- Concrete document for the C1 witness: one country section with one
parsed table. -/
def docC1 : List Node :=
  [Node.h2 ⟨some "Albania", "", ""⟩,
   Node.tbl (some ⟨[ColHeader.single "Title"], [[Cell.str "Moby"]]⟩)]

/-- The final frame produced from `docC1`. -/
def frameC1 : Frame :=
  ⟨["Country", "Subdivision", "Title", "Author(s)", "Year published", "Year banned",
    "Year unbanned", "Type", "Notes"],
   [["Albania", "<NA>", "Moby", "<NA>", "<NA>", "<NA>", "<NA>", "<NA>", "<NA>"]]⟩

/-- Concrete document for the C1 counterexample: the country heading's text
is the literal string `"nan"`, which the cleanup step replaces with the
empty string. -/
def docC1x : List Node :=
  [Node.h2 ⟨some "nan", "", ""⟩,
   Node.tbl (some ⟨[ColHeader.single "Title"], [[Cell.str "Book"]]⟩)]

/-- The final frame produced from `docC1x`: its only row has an empty
Country value. -/
def frameC1x : Frame :=
  ⟨["Country", "Subdivision", "Title", "Author(s)", "Year published", "Year banned",
    "Year unbanned", "Type", "Notes"],
   [["", "<NA>", "Book", "<NA>", "<NA>", "<NA>", "<NA>", "<NA>", "<NA>"]]⟩

/-- Concrete document for the second C1 counterexample: the table's Title
column consists of one empty (missing) cell, which `read_html` parses as
an all-`NaN` float64 column. -/
def docC1y : List Node :=
  [Node.h2 ⟨some "Japan", "", ""⟩,
   Node.tbl (some ⟨[ColHeader.single "Title"], [[Cell.nan]]⟩)]

/-- The final frame produced from `docC1y`: its only row has an empty
Title value, because the non-object Title column skipped the cleanup and
its `NaN` passed the title filter as `"nan"`. -/
def frameC1y : Frame :=
  ⟨["Country", "Subdivision", "Title", "Author(s)", "Year published", "Year banned",
    "Year unbanned", "Type", "Notes"],
   [["Japan", "<NA>", "", "<NA>", "<NA>", "<NA>", "<NA>", "<NA>", "<NA>"]]⟩

/-- Concrete document for the C2 witness: the spec's France/Quebec
scenario — an `h3` "Quebec" belonging to a prior `h2` "Canada" section,
with the table appearing after a new `h2` "France". -/
def docC2 : List Node :=
  [Node.h2 ⟨some "Canada", "", ""⟩, Node.h3 ⟨some "Quebec", "", ""⟩,
   Node.h2 ⟨some "France", "", ""⟩, Node.tbl none]

/-- Concrete document for the C2 counterexample: two distinct `h2` nodes
with byte-identical markup around an `h3`. -/
def docC2x : List Node :=
  [Node.h2 ⟨some "Alpha", "", ""⟩, Node.h3 ⟨some "Sub", "", ""⟩,
   Node.h2 ⟨some "Alpha", "", ""⟩, Node.tbl none]

/-- Contrast document for C2: the same two `h2` headings but with distinct
`mw-headline` ids, i.e. equal display text yet different markup — the
situation Wikipedia produces for duplicated section titles. -/
def docC2z : List Node :=
  [Node.h2 ⟨some "Alpha", "", "id=Alpha"⟩, Node.h3 ⟨some "Sub", "", ""⟩,
   Node.h2 ⟨some "Alpha", "", "id=Alpha_2"⟩, Node.tbl none]

/-- Concrete document for the C3 witness: a table with only a Title
column. -/
def docC3 : List Node :=
  [Node.h2 ⟨some "Bhutan", "", ""⟩,
   Node.tbl (some ⟨[ColHeader.single "Title"], [[Cell.str "Dune"]]⟩)]

/-- The frame produced from the table of `docC3`. -/
def frameC3 : Frame :=
  ⟨["Country", "Subdivision", "Title", "Author(s)", "Year published", "Year banned",
    "Year unbanned", "Type", "Notes"],
   [["Bhutan", "<NA>", "Dune", "<NA>", "<NA>", "<NA>", "<NA>", "<NA>", "<NA>"]]⟩

/-- Concrete document for the C3 counterexample: its table has no
"Notes"/"Reason" column. -/
def docC3x : List Node :=
  [Node.h2 ⟨some "Chile", "", ""⟩,
   Node.tbl (some ⟨[ColHeader.single "Title"], [[Cell.str "Ulysses"]]⟩)]

/-- The final output frame produced from `docC3x`. -/
def frameC3x : Frame :=
  ⟨["Country", "Subdivision", "Title", "Author(s)", "Year published", "Year banned",
    "Year unbanned", "Type", "Notes"],
   [["Chile", "<NA>", "Ulysses", "<NA>", "<NA>", "<NA>", "<NA>", "<NA>", "<NA>"]]⟩

/-- Concrete document for the C4 witness: one surviving table. -/
def docC4 : List Node :=
  [Node.h2 ⟨some "Denmark", "", ""⟩,
   Node.tbl (some ⟨[ColHeader.single "Title"], [[Cell.str "Lolita"]]⟩)]

/-- Concrete document for the C5 witness: a table whose markup fails to
parse, between a heading and a second, parseable table. -/
def docC5 : List Node :=
  [Node.h2 ⟨some "Egypt", "", ""⟩, Node.tbl none,
   Node.tbl (some ⟨[ColHeader.single "Title"], [[Cell.str "Nana"]]⟩)]

/-- Concrete document for the C7 witness: its table carries an extra
"Publisher" column beyond the canonical set. -/
def docC7 : List Node :=
  [Node.h2 ⟨some "Ghana", "", ""⟩,
   Node.tbl (some ⟨[ColHeader.single "Title", ColHeader.single "Publisher"],
     [[Cell.str "Emma", Cell.str "Vik"]]⟩)]

/-- The frame list collected from `docC7`. -/
def fsC7 : List Frame :=
  [⟨["Country", "Subdivision", "Title", "Publisher", "Author(s)", "Year published",
     "Year banned", "Year unbanned", "Type", "Notes"],
    [["Ghana", "<NA>", "Emma", "Vik", "<NA>", "<NA>", "<NA>", "<NA>", "<NA>", "<NA>"]]⟩]

/-- Concrete document for the C8 witness. -/
def docC8 : List Node :=
  [Node.h2 ⟨some "Iran", "", ""⟩,
   Node.tbl (some ⟨[ColHeader.single "Title"], [[Cell.str "Blindness"]]⟩)]

section Lemmas

theorem dropWhile_head?_false {α : Type} {p : α → Bool} {l : List α} {a : α}
    (h : (l.dropWhile p).head? = some a) : p a = false := by
  have hw := List.head?_dropWhile_not p l
  rw [h] at hw
  exact hw

theorem dropWhile_eq_self_of_head? {α : Type} {p : α → Bool} {l : List α}
    (h : ∀ a, l.head? = some a → p a = false) : l.dropWhile p = l := by
  cases l with
  | nil => rfl
  | cons x xs =>
    have hx := h x rfl
    simp [List.dropWhile_cons, hx]

theorem trimChars_idem (l : List Char) : trimChars (trimChars l) = trimChars l := by
  unfold trimChars
  have h1 : (((l.dropWhile Char.isWhitespace).reverse.dropWhile Char.isWhitespace).reverse).dropWhile
      Char.isWhitespace =
      ((l.dropWhile Char.isWhitespace).reverse.dropWhile Char.isWhitespace).reverse := by
    apply dropWhile_eq_self_of_head?
    intro a ha
    rw [List.head?_reverse] at ha
    obtain ⟨t, ht⟩ :=
      List.dropWhile_suffix (l := (l.dropWhile Char.isWhitespace).reverse) Char.isWhitespace
    have h2 : ((l.dropWhile Char.isWhitespace).reverse).getLast? = some a := by
      rw [← ht, List.getLast?_append, ha]
      rfl
    rw [List.getLast?_reverse] at h2
    exact dropWhile_head?_false h2
  rw [h1, List.reverse_reverse]
  congr 1
  apply dropWhile_eq_self_of_head?
  intro a ha
  exact dropWhile_head?_false ha

theorem pstrip_idem (s : String) : pstrip (pstrip s) = pstrip s := by
  show String.mk (trimChars (String.mk (trimChars s.data)).data) = _
  show String.mk (trimChars (trimChars s.data)) = _
  rw [trimChars_idem]
  rfl

theorem get_headline_text_pstrip (h : Heading) :
    pstrip (get_headline_text h) = get_headline_text h := by
  unfold get_headline_text
  exact pstrip_idem _

theorem findPrevIdx_eq_some {p : Node → Bool} {doc : List Node} :
    ∀ {i j : Nat}, j < i → matchesAt p doc j = true →
    (∀ m, j < m → m < i → matchesAt p doc m = false) →
    findPrevIdx p doc i = some j := by
  intro i
  induction i with
  | zero => intro j h; omega
  | succ i ih =>
    intro j hj hmatch hnone
    unfold findPrevIdx
    by_cases hji : j = i
    · subst hji
      unfold matchesAt at hmatch
      cases hd : doc[j]? with
      | none => rw [hd] at hmatch; simp at hmatch
      | some n =>
        rw [hd] at hmatch
        simp only at hmatch
        simp [hmatch]
    · have hji' : j < i := by omega
      have hfalse : matchesAt p doc i = false := hnone i (by omega) (by omega)
      have hrec := ih hji' hmatch (fun m h1 h2 => hnone m h1 (by omega))
      unfold matchesAt at hfalse
      cases hd : doc[i]? with
      | none => exact hrec
      | some n =>
        rw [hd] at hfalse
        simp only at hfalse
        simp only [hfalse]
        simpa using hrec

theorem findPrevIdx_some_matches {p : Node → Bool} {doc : List Node} :
    ∀ {i j : Nat}, findPrevIdx p doc i = some j →
    j < i ∧ matchesAt p doc j = true := by
  intro i
  induction i with
  | zero => intro j h; exact absurd h (by simp [findPrevIdx])
  | succ i ih =>
    intro j h
    unfold findPrevIdx at h
    cases hd : doc[i]? with
    | none =>
      rw [hd] at h
      have := ih h
      exact ⟨by omega, this.2⟩
    | some n =>
      rw [hd] at h
      by_cases hp : p n
      · simp [hp] at h
        subst h
        exact ⟨by omega, by simp [matchesAt, hd, hp]⟩
      · simp [hp] at h
        have := ih h
        exact ⟨by omega, this.2⟩

theorem insertCol_eq_some {name : String} {cell : Cell} {cols : List String}
    {rows : List (List Cell)} {out : List String × List (List Cell)}
    (h : insertCol name cell cols rows = some out) :
    cols.contains name = false ∧
    out = (name :: cols, rows.map (fun r => cell :: r)) := by
  unfold insertCol at h
  split at h
  · exact absurd h (by simp)
  · refine ⟨by simp_all, by simp_all⟩

theorem processTable_parse_failure (doc : List Node) (i : Nat) :
    processTable doc i none = .ok none := by
  unfold processTable
  cases resolveCountry doc i with
  | none => rfl
  | some country =>
    by_cases hc : country = "" ∨ country ∈ NON_COUNTRY_H2
    · simp [hc]
    · simp [hc]

theorem processTable_bad_country {doc : List Node} {i : Nat} (t : Option ParsedTable)
    (hbad : resolveCountry doc i = none ∨ resolveCountry doc i = some "" ∨
      ∃ c, resolveCountry doc i = some c ∧ c ∈ NON_COUNTRY_H2) :
    processTable doc i t = .ok none := by
  unfold processTable
  rcases hbad with hb | hb | ⟨c, hb, hmem⟩
  · rw [hb]
  · rw [hb]
    simp
  · rw [hb]
    have : c = "" ∨ c ∈ NON_COUNTRY_H2 := Or.inr hmem
    simp [this]

theorem processTable_ok_some {doc : List Node} {i : Nat} {t : Option ParsedTable} {fr : Frame}
    (h : processTable doc i t = .ok (some fr)) :
    ∃ country pt,
      resolveCountry doc i = some country ∧ country ≠ "" ∧ country ∉ NON_COUNTRY_H2 ∧
      t = some pt ∧
      fr.cols = "Country" :: "Subdivision" :: fillExpectedCols (normalize_colnames pt.headers) ∧
      fr.cols.Nodup ∧
      fr.rows = (titleFilter fr.cols (cleanRows (stagedRows doc i country pt))).map
        (fun r => r.map csvCell) := by
  unfold processTable at h
  cases hc : resolveCountry doc i with
  | none => rw [hc] at h; exact absurd h (by simp)
  | some country =>
    rw [hc] at h
    simp only at h
    split at h
    · exact absurd h (by simp)
    case isFalse hcond =>
      cases t with
      | none => exact absurd h (by simp)
      | some pt =>
        simp only at h
        cases h1 : insertCol "Subdivision" (subCell (resolveSubdivision doc i))
            (fillExpectedCols (normalize_colnames pt.headers))
            (fillExpectedRows (normalize_colnames pt.headers) pt.rows) with
        | none => rw [h1] at h; exact absurd h (by simp)
        | some out2 =>
          rw [h1] at h
          obtain ⟨hs2, hout2⟩ := insertCol_eq_some h1
          obtain ⟨c2, r2⟩ := out2
          simp only at h
          cases h2 : insertCol "Country" (Cell.str country) c2 r2 with
          | none => rw [h2] at h; simp at h
          | some out3 =>
            rw [h2] at h
            obtain ⟨hs3, hout3⟩ := insertCol_eq_some h2
            obtain ⟨c3, r3⟩ := out3
            simp only at h
            split at h
            case isFalse => simp at h
            case isTrue hnd =>
              simp only [Except.ok.injEq, Option.some.injEq] at h
              simp only [Prod.mk.injEq] at hout2 hout3
              obtain ⟨hc2, hr2⟩ := hout2
              obtain ⟨hc3, hr3⟩ := hout3
              subst hc3
              subst hr3
              subst hc2
              subst hr2
              refine ⟨country, pt, rfl, ?_, ?_, rfl, ?_, ?_, ?_⟩
              · intro he; exact hcond (Or.inl he)
              · intro hm; exact hcond (Or.inr hm)
              · rw [← h]
              · rw [← h]; exact hnd
              · rw [← h]
                unfold stagedRows
                simp only [List.map_map]
                rfl

theorem colIdx_cons_eq (x : String) (l : List String) : colIdx (x :: l) x = 0 := by
  simp [colIdx]

theorem colIdx_cons_ne {c x : String} (h : c ≠ x) (l : List String) :
    colIdx (c :: l) x = colIdx l x + 1 := by
  simp [colIdx, h]

theorem colIdx_append_of_not_mem {c : String} : ∀ {xs : List String} (ys : List String),
    c ∉ xs → colIdx (xs ++ ys) c = xs.length + colIdx ys c := by
  intro xs
  induction xs with
  | nil => intro ys _; simp
  | cons x xs ih =>
    intro ys hm
    have hx : x ≠ c := fun he => hm (he ▸ List.mem_cons_self x xs)
    rw [List.cons_append, colIdx_cons_ne hx, ih ys (fun hc => hm (List.mem_cons_of_mem x hc))]
    simp only [List.length_cons]
    omega

theorem colIdx_lt_of_mem {c : String} : ∀ {l : List String}, c ∈ l → colIdx l c < l.length := by
  intro l
  induction l with
  | nil => intro h; exact absurd h (by simp)
  | cons x xs ih =>
    intro hm
    by_cases hx : x = c
    · subst hx; rw [colIdx_cons_eq]; simp
    · have : c ∈ xs := by
        rcases List.mem_cons.mp hm with h | h
        · exact absurd h.symm hx
        · exact h
      rw [colIdx_cons_ne hx]
      have := ih this
      simp only [List.length_cons]
      omega

theorem colIdx_append_left {c : String} : ∀ {xs : List String} (ys : List String),
    c ∈ xs → colIdx (xs ++ ys) c = colIdx xs c := by
  intro xs
  induction xs with
  | nil => intro ys h; exact absurd h (by simp)
  | cons x xs ih =>
    intro ys h
    by_cases hx : x = c
    · subst hx
      rw [List.cons_append, colIdx_cons_eq, colIdx_cons_eq]
    · have hm : c ∈ xs := by
        rcases List.mem_cons.mp h with h' | h'
        · exact absurd h'.symm hx
        · exact h'
      rw [List.cons_append, colIdx_cons_ne hx, colIdx_cons_ne hx, ih ys hm]

theorem getD_congr_default {α : Type} {l : List α} {k : Nat}
    (h : k < l.length) (d1 d2 : α) : l.getD k d1 = l.getD k d2 := by
  rw [List.getD_eq_getElem?_getD, List.getD_eq_getElem?_getD, List.getElem?_eq_getElem h]
  rfl

theorem getD_map_of_lt {α β : Type} {l : List α} {f : α → β} {k : Nat}
    (h : k < l.length) (d : β) (e : α) : (l.map f).getD k d = f (l.getD k e) := by
  rw [List.getD_eq_getElem?_getD, List.getElem?_map, List.getElem?_eq_getElem h,
    List.getD_eq_getElem?_getD, List.getElem?_eq_getElem h]
  rfl

theorem getD_mapIdx_of_lt {α β : Type} {l : List α} {f : Nat → α → β} {k : Nat}
    (h : k < l.length) (d : β) (e : α) : (l.mapIdx f).getD k d = f k (l.getD k e) := by
  rw [List.getD_eq_getElem?_getD, List.getElem?_mapIdx, List.getElem?_eq_getElem h,
    List.getD_eq_getElem?_getD, List.getElem?_eq_getElem h]
  rfl

/-- Auxiliary: getD on a constant-valued map below its length. -/
theorem getD_map_const_of_lt {α β : Type} {l : List α} {b : β} {m : Nat}
    (h : m < l.length) (d : β) : (l.map (fun _ => b)).getD m d = b := by
  induction l generalizing m with
  | nil => exact absurd h (by simp)
  | cons x xs ih =>
    cases m with
    | zero => rfl
    | succ m => exact ih (by simpa using h)

theorem colIsObj_of_text {rows : List (List Cell)} {r : List Cell} {k : Nat}
    (hr : r ∈ rows) (ht : isTextCell (r.getD k Cell.nan) = true) :
    colIsObj rows k = true := by
  unfold colIsObj columnAt
  rw [List.any_eq_true]
  exact ⟨r.getD k Cell.nan, List.mem_map.mpr ⟨r, hr, rfl⟩, ht⟩

theorem cleanRow_length (rows : List (List Cell)) (r : List Cell) :
    (cleanRow rows r).length = r.length := by
  simp [cleanRow]

theorem cleanRow_getD {rows : List (List Cell)} {r : List Cell} {k : Nat}
    (hk : k < r.length) :
    (cleanRow rows r).getD k Cell.nan =
      if colIsObj rows k then Cell.str (cleanCell (r.getD k Cell.nan))
      else r.getD k Cell.nan := by
  unfold cleanRow
  exact getD_mapIdx_of_lt hk _ _

theorem mem_fillExpectedCols_of_expected {c : String} (cols : List String)
    (hc : c ∈ expectedCols) : c ∈ fillExpectedCols cols := by
  unfold fillExpectedCols fillMissing
  by_cases h : cols.contains c
  · exact List.mem_append_left _ (by simpa using h)
  · refine List.mem_append_right _ (List.mem_filter.mpr ⟨hc, ?_⟩)
    simp only [h]
    rfl

theorem contains_true_iff {l : List String} {a : String} :
    l.contains a = true ↔ a ∈ l := by
  induction l with
  | nil => simp
  | cons x xs ih => simp

theorem collectIdx_mem {doc : List Node} :
    ∀ {l : List Nat} {fs : List Frame} {fr : Frame},
    collectIdx doc l = .ok fs → fr ∈ fs →
    ∃ i t, i ∈ l ∧ doc[i]? = some (.tbl t) ∧ processTable doc i t = .ok (some fr) := by
  intro l
  induction l with
  | nil =>
    intro fs fr h hm
    simp only [collectIdx, Except.ok.injEq] at h
    subst h
    exact absurd hm (by simp)
  | cons i rest ih =>
    intro fs fr h hm
    unfold collectIdx at h
    cases hd : doc[i]? with
    | none =>
      rw [hd] at h
      obtain ⟨i', t, hmem, h1, h2⟩ := ih h hm
      exact ⟨i', t, List.mem_cons_of_mem _ hmem, h1, h2⟩
    | some n =>
      rw [hd] at h
      cases n with
      | h2 hh =>
        obtain ⟨i', t, hmem, h1, h2⟩ := ih h hm
        exact ⟨i', t, List.mem_cons_of_mem _ hmem, h1, h2⟩
      | h3 hh =>
        obtain ⟨i', t, hmem, h1, h2⟩ := ih h hm
        exact ⟨i', t, List.mem_cons_of_mem _ hmem, h1, h2⟩
      | tbl t =>
        simp only at h
        cases hp : processTable doc i t with
        | error e => rw [hp] at h; simp at h
        | ok o =>
          rw [hp] at h
          cases o with
          | none =>
            obtain ⟨i', t', hmem, h1, h2⟩ := ih h hm
            exact ⟨i', t', List.mem_cons_of_mem _ hmem, h1, h2⟩
          | some f =>
            simp only at h
            cases hr : collectIdx doc rest with
            | error e => rw [hr] at h; simp at h
            | ok fs' =>
              rw [hr] at h
              simp only [Except.ok.injEq] at h
              subst h
              rcases List.mem_cons.mp hm with rfl | hm'
              · exact ⟨i, t, List.mem_cons_self i rest, hd, hp⟩
              · obtain ⟨i', t', hmem, h1, h2⟩ := ih hr hm'
                exact ⟨i', t', List.mem_cons_of_mem _ hmem, h1, h2⟩

theorem collectIdx_no_tables {doc : List Node} :
    ∀ {l : List Nat}, (∀ i ∈ l, ∀ t, doc[i]? ≠ some (.tbl t)) →
    collectIdx doc l = .ok [] := by
  intro l
  induction l with
  | nil => intro _; rfl
  | cons i rest ih =>
    intro hno
    unfold collectIdx
    have hrec := ih (fun j hj t => hno j (List.mem_cons_of_mem _ hj) t)
    cases hd : doc[i]? with
    | none => exact hrec
    | some n =>
      cases n with
      | h2 hh => exact hrec
      | h3 hh => exact hrec
      | tbl t => exact absurd hd (hno i (List.mem_cons_self i rest) t)

theorem collectIdx_filter_ne {doc : List Node} {i : Nat}
    (hskip : ∀ t, doc[i]? = some (.tbl t) → processTable doc i t = .ok none) :
    ∀ l : List Nat, collectIdx doc (l.filter (fun m => m != i)) = collectIdx doc l := by
  intro l
  induction l with
  | nil => rfl
  | cons j rest ih =>
    by_cases hji : j = i
    · subst hji
      have hf : (j :: rest).filter (fun m => m != j) = rest.filter (fun m => m != j) := by
        simp [List.filter_cons]
      rw [hf, ih]
      conv_rhs => unfold collectIdx
      cases hd : doc[j]? with
      | none => rfl
      | some n =>
        cases n with
        | h2 hh => rfl
        | h3 hh => rfl
        | tbl t =>
          simp only
          rw [hskip t hd]
    · have hf : (j :: rest).filter (fun m => m != i) = j :: rest.filter (fun m => m != i) := by
        simp [List.filter_cons, hji]
      rw [hf]
      unfold collectIdx
      cases hd : doc[j]? with
      | none => exact ih
      | some n =>
        cases n with
        | h2 hh => exact ih
        | h3 hh => exact ih
        | tbl t =>
          simp only
          cases hp : processTable doc j t with
          | error e => rfl
          | ok o =>
            cases o with
            | none => exact ih
            | some f => rw [ih]

theorem mem_concatCols_aux {c : String} :
    ∀ (fs : List Frame) (acc : List String),
    (c ∈ acc ∨ ∃ fr ∈ fs, c ∈ fr.cols) →
    c ∈ fs.foldl (fun acc f => acc ++ (f.cols.filter (fun x => !(acc.contains x)))) acc := by
  intro fs
  induction fs with
  | nil =>
    intro acc h
    rcases h with h | ⟨fr, hm, _⟩
    · exact h
    · exact absurd hm (by simp)
  | cons f fs ih =>
    intro acc h
    simp only [List.foldl_cons]
    apply ih
    rcases h with h | ⟨fr, hm, hc⟩
    · exact Or.inl (List.mem_append_left _ h)
    · rcases List.mem_cons.mp hm with rfl | hm'
      · by_cases hacc : c ∈ acc
        · exact Or.inl (List.mem_append_left _ hacc)
        · refine Or.inl (List.mem_append_right _ (List.mem_filter.mpr ⟨hc, ?_⟩))
          simp [hacc]
      · exact Or.inr ⟨fr, hm', hc⟩

theorem mem_concatCols {c : String} {fs : List Frame} {fr : Frame}
    (hm : fr ∈ fs) (hc : c ∈ fr.cols) : c ∈ concatCols fs :=
  mem_concatCols_aux fs [] (Or.inr ⟨fr, hm, hc⟩)

theorem finalFrame_ok {doc : List Node} {f : Frame} (h : finalFrame doc = .ok f) :
    ∃ fs, collectFrames doc = .ok fs ∧ fs ≠ [] ∧
      f.cols = canon9 ++ (concatCols fs).filter (fun c => !(canon9.contains c)) ∧
      f.rows = (fs.map (fun fr => fr.rows.map (fun r => alignRow fr.cols r f.cols))).flatten := by
  unfold finalFrame at h
  cases hc : collectFrames doc with
  | error e => rw [hc] at h; simp at h
  | ok fs =>
    rw [hc] at h
    simp only at h
    split at h
    case isTrue => simp at h
    case isFalse hne =>
      split at h
      case isTrue hall =>
        simp only [Except.ok.injEq] at h
        refine ⟨fs, rfl, by simpa using hne, ?_, ?_⟩
        · rw [← h]
        · rw [← h]
      case isFalse => simp at h

theorem canon9_in_concatCols {doc : List Node} {fs : List Frame}
    (hc : collectFrames doc = .ok fs) (hne : fs ≠ []) :
    ∀ c ∈ canon9, c ∈ concatCols fs := by
  obtain ⟨fr, hfr⟩ : ∃ fr, fr ∈ fs := by
    cases fs with
    | nil => exact absurd rfl hne
    | cons a l => exact ⟨a, List.mem_cons_self a l⟩
  obtain ⟨i, t, _, hd, hp⟩ := collectIdx_mem hc hfr
  obtain ⟨country, pt, _, _, _, _, hfcols, _, _⟩ := processTable_ok_some hp
  intro c hcm
  apply mem_concatCols hfr
  rw [hfcols]
  simp only [canon9, List.mem_cons, List.not_mem_nil, or_false] at hcm
  rcases hcm with rfl | rfl | rfl | rfl | rfl | rfl | rfl | rfl | rfl
  · exact List.mem_cons_self _ _
  · exact List.mem_cons_of_mem _ (List.mem_cons_self _ _)
  all_goals
    exact List.mem_cons_of_mem _ (List.mem_cons_of_mem _
      (mem_fillExpectedCols_of_expected _ (by decide)))

theorem finalFrame_ok_of {doc : List Node} {fs : List Frame}
    (hc : collectFrames doc = .ok fs) (hne : fs ≠ [])
    (hall : ∀ c ∈ canon9, c ∈ concatCols fs) :
    finalFrame doc = .ok
      { cols := canon9 ++ (concatCols fs).filter (fun c => !(canon9.contains c)),
        rows := (fs.map (fun fr => fr.rows.map (fun r => alignRow fr.cols r
          (canon9 ++ (concatCols fs).filter (fun c => !(canon9.contains c)))))).flatten } := by
  unfold finalFrame
  rw [hc]
  simp only
  rw [if_neg (by simpa using hne), if_pos]
  simp only [List.all_eq_true]
  intro c hcm
  exact contains_true_iff.mpr (hall c hcm)

theorem mem_frame_rows {doc : List Node} {i : Nat} {t : Option ParsedTable} {fr : Frame}
    {r : List String} (hp : processTable doc i t = .ok (some fr)) (hr : r ∈ fr.rows) :
    ∃ country pt r4 r0,
      resolveCountry doc i = some country ∧ country ≠ "" ∧ t = some pt ∧
      r4 ∈ stagedRows doc i country pt ∧ r0 ∈ pt.rows ∧
      r4 = Cell.str country :: subCell (resolveSubdivision doc i) ::
        (r0 ++ (fillMissing (normalize_colnames pt.headers)).map (fun _ => Cell.NA)) ∧
      r = (cleanRow (stagedRows doc i country pt) r4).map csvCell ∧
      (cellToString ((cleanRow (stagedRows doc i country pt) r4).getD
        (colIdx fr.cols "Title") (Cell.str "")) != "") = true := by
  obtain ⟨country, pt, hc, hcne, hcnc, ht, hfcols, hfnd, hfrows⟩ := processTable_ok_some hp
  rw [hfrows] at hr
  obtain ⟨r6, hr6, hrc⟩ := List.mem_map.mp hr
  have hpred := List.of_mem_filter hr6
  have hr6' := List.mem_of_mem_filter hr6
  unfold cleanRows at hr6'
  obtain ⟨r4, hr4, hr6e⟩ := List.mem_map.mp hr6'
  have hr4' : r4 ∈ (fillExpectedRows (normalize_colnames pt.headers) pt.rows).map
      (fun w => Cell.str country :: subCell (resolveSubdivision doc i) :: w) :=
    List.mem_of_mem_filter hr4
  obtain ⟨r1, hr1, hr4e⟩ := List.mem_map.mp hr4'
  obtain ⟨r0, hr0, hr1e⟩ := List.mem_map.mp hr1
  refine ⟨country, pt, r4, r0, hc, hcne, ht, hr4, hr0, ?_, ?_, ?_⟩
  · rw [← hr4e, ← hr1e]
  · rw [← hrc, ← hr6e]
  · rw [← hr6e] at hpred
    exact hpred

theorem resolveCountry_eq_some {doc : List Node} {i : Nat} {c : String}
    (h : resolveCountry doc i = some c) :
    ∃ (j : Nat) (hh : Heading), doc[j]? = some (Node.h2 hh) ∧ c = get_headline_text hh := by
  unfold resolveCountry get_headline_textOpt at h
  cases hf : findPrevH2 doc i with
  | none => rw [hf] at h; simp at h
  | some j =>
    rw [hf] at h
    have hm := (findPrevIdx_some_matches hf).2
    unfold matchesAt at hm
    cases hd : doc[j]? with
    | none => rw [hd] at hm; simp at hm
    | some n =>
      rw [hd] at hm
      simp only at hm
      cases n with
      | h3 hh => simp [isH2] at hm
      | tbl t => simp [isH2] at hm
      | h2 hh =>
        refine ⟨j, hh, hd, ?_⟩
        simp only [Option.some_bind, headingAt, hd] at h
        simp only [Option.map] at h
        simp only [Option.some.injEq] at h
        exact h.symm

theorem alignRow_getD {src : List String} {row : List String} {dst : List String}
    {c : String} {k : Nat} (hk : dst[k]? = some c) (hcm : c ∈ src) :
    (alignRow src row dst).getD k "" = row.getD (colIdx src c) "" := by
  unfold alignRow
  rw [List.getD_eq_getElem?_getD, List.getElem?_map, hk]
  simp [contains_true_iff.mpr hcm, hcm]

theorem colIdx_canon9_append_title (rest : List String) :
    colIdx (canon9 ++ rest) "Title" = 2 := by
  show colIdx ("Country" :: "Subdivision" :: "Title" :: (["Author(s)", "Year published",
    "Year banned", "Year unbanned", "Type", "Notes"] ++ rest)) "Title" = 2
  rw [colIdx_cons_ne (by decide), colIdx_cons_ne (by decide), colIdx_cons_eq]

theorem colIdx_canon9_append_country (rest : List String) :
    colIdx (canon9 ++ rest) "Country" = 0 := by
  show colIdx ("Country" :: ("Subdivision" :: "Title" :: "Author(s)" :: "Year published" ::
    "Year banned" :: "Year unbanned" :: "Type" :: "Notes" :: []) ++ rest) "Country" = 0
  rw [List.cons_append, colIdx_cons_eq]

theorem canon9_append_getElem_title (rest : List String) :
    (canon9 ++ rest)[2]? = some "Title" := by
  rw [List.getElem?_append_left (by simp [canon9])]
  rfl

theorem canon9_append_getElem_country (rest : List String) :
    (canon9 ++ rest)[0]? = some "Country" := by
  rw [List.getElem?_append_left (by simp [canon9])]
  rfl

end Lemmas

section Claims

/-- C1 (amended).  Rows from tables whose nearest preceding top-level
heading is absent, has empty text, or is a housekeeping label are excluded
unconditionally.  Every output row's Title has non-zero length provided
each parsed table is rectangular (as `read_html` pads) and no parsed Title
column holds a missing (`NaN`) cell — a Title column whose values are all
numeric or missing gets a non-object dtype, skips the cleanup, passes the
title filter as `"nan"` and serializes as an empty Title.  The Country
value is non-empty provided no table's resolved country text is the
literal string `"nan"`, which `replace({"nan": ""})` would blank. -/
theorem C1_output_invariant (doc : List Node) (f : Frame)
    (hf : finalFrame doc = .ok f) :
    ((∀ (i : Nat) (pt : ParsedTable), doc[i]? = some (Node.tbl (some pt)) →
        (∀ r ∈ pt.rows, r.length = pt.headers.length) ∧
        (∀ r ∈ pt.rows,
          r.getD (colIdx (normalize_colnames pt.headers) "Title") Cell.NA ≠ Cell.nan)) →
      ∀ row ∈ f.rows, row.getD (colIdx f.cols "Title") "" ≠ "") ∧
    ((∀ (i : Nat) (t : Option ParsedTable), doc[i]? = some (Node.tbl t) →
        ∀ c, resolveCountry doc i = some c → c ≠ "nan") →
      ∀ row ∈ f.rows, row.getD (colIdx f.cols "Country") "" ≠ "") ∧
    (∀ i t, doc[i]? = some (Node.tbl t) →
      (resolveCountry doc i = none ∨ resolveCountry doc i = some "" ∨
        ∃ c, resolveCountry doc i = some c ∧ c ∈ NON_COUNTRY_H2) →
      processTable doc i t = .ok none) := by
  obtain ⟨fs, hcf, hne, hcols, hrows⟩ := finalFrame_ok hf
  refine ⟨?_, ?_, ?_⟩
  · intro hsrc row hrow
    rw [hrows] at hrow
    obtain ⟨rl, hrl, hrowm⟩ := List.mem_flatten.mp hrow
    obtain ⟨fr, hfr, hrl_eq⟩ := List.mem_map.mp hrl
    rw [← hrl_eq] at hrowm
    obtain ⟨rs, hrs, hre⟩ := List.mem_map.mp hrowm
    obtain ⟨i, t, _, hd, hp⟩ := collectIdx_mem hcf hfr
    obtain ⟨country, pt, r4, r0, hc, hcne, ht, hr4, hr0, hr4e, hrse, hpred⟩ :=
      mem_frame_rows hp hrs
    subst ht
    obtain ⟨hrect, hnonan⟩ := hsrc i pt hd
    obtain ⟨c2, pt2, hc2, _, _, ht2, hfcols, hfnd, _⟩ := processTable_ok_some hp
    injection ht2 with ht2e
    subst ht2e
    have hTmem : "Title" ∈ fr.cols := by
      rw [hfcols]
      exact List.mem_cons_of_mem _ (List.mem_cons_of_mem _
        (mem_fillExpectedCols_of_expected _ (by decide)))
    have hT2 : f.cols[2]? = some "Title" := by
      rw [hcols]; exact canon9_append_getElem_title _
    rw [← hre, hcols, colIdx_canon9_append_title, ← hcols, alignRow_getD hT2 hTmem]
    by_cases hlt : colIdx fr.cols "Title" < (cleanRow (stagedRows doc i country pt) r4).length
    case neg =>
      exfalso
      rw [List.getD_eq_getElem?_getD, List.getElem?_eq_none (by omega)] at hpred
      simp [cellToString] at hpred
    case pos =>
      have hlt4 : colIdx fr.cols "Title" < r4.length := by
        rw [cleanRow_length] at hlt; exact hlt
      rw [hrse, getD_map_of_lt hlt "" Cell.nan]
      rw [getD_congr_default hlt (Cell.str "") Cell.nan] at hpred
      rw [cleanRow_getD hlt4] at hpred ⊢
      by_cases hobj : colIsObj (stagedRows doc i country pt) (colIdx fr.cols "Title")
      · rw [if_pos hobj] at hpred ⊢
        simp only [cellToString, bne_iff_ne, ne_eq] at hpred
        simpa [csvCell] using hpred
      · rw [if_neg hobj] at hpred ⊢
        cases hc4 : r4.getD (colIdx fr.cols "Title") Cell.nan with
        | str v =>
          rw [hc4] at hpred
          simp only [cellToString, bne_iff_ne, ne_eq] at hpred
          simpa [csvCell] using hpred
        | NA =>
          exact absurd (colIsObj_of_text hr4 (by rw [hc4]; rfl)) hobj
        | num v =>
          rw [hc4] at hpred
          simp only [cellToString, bne_iff_ne, ne_eq] at hpred
          simpa [csvCell] using hpred
        | nan =>
          exfalso
          have hidx : colIdx fr.cols "Title" =
              colIdx (fillExpectedCols (normalize_colnames pt.headers)) "Title" + 1 + 1 := by
            rw [hfcols, colIdx_cons_ne (by decide), colIdx_cons_ne (by decide)]
          have hr0len : r0.length = (normalize_colnames pt.headers).length := by
            rw [show (normalize_colnames pt.headers).length = pt.headers.length by
              simp [normalize_colnames]]
            exact hrect r0 hr0
          have hcell : r4.getD (colIdx fr.cols "Title") Cell.nan = Cell.nan := hc4
          rw [hidx, hr4e, List.getD_cons_succ, List.getD_cons_succ] at hcell
          by_cases hTn : "Title" ∈ normalize_colnames pt.headers
          · have hjT : colIdx (fillExpectedCols (normalize_colnames pt.headers)) "Title" =
                colIdx (normalize_colnames pt.headers) "Title" := by
              unfold fillExpectedCols
              exact colIdx_append_left _ hTn
            have hjTlt : colIdx (normalize_colnames pt.headers) "Title" < r0.length := by
              rw [hr0len]; exact colIdx_lt_of_mem hTn
            rw [hjT, List.getD_append _ _ _ _ hjTlt] at hcell
            have hnn := hnonan r0 hr0
            rw [getD_congr_default hjTlt Cell.NA Cell.nan] at hnn
            exact hnn hcell
          · have hnc : (normalize_colnames pt.headers).contains "Title" = false := by
              cases hcc : (normalize_colnames pt.headers).contains "Title" with
              | false => rfl
              | true => exact absurd (contains_true_iff.mp hcc) hTn
            have hTm : "Title" ∈ fillMissing (normalize_colnames pt.headers) :=
              List.mem_filter.mpr ⟨by decide, by rw [hnc]; rfl⟩
            have hjT : colIdx (fillExpectedCols (normalize_colnames pt.headers)) "Title" =
                (normalize_colnames pt.headers).length +
                  colIdx (fillMissing (normalize_colnames pt.headers)) "Title" := by
              unfold fillExpectedCols
              exact colIdx_append_of_not_mem _ hTn
            rw [hjT, List.getD_append_right _ _ _ _ (by rw [hr0len]; omega)] at hcell
            have hsub : (normalize_colnames pt.headers).length +
                colIdx (fillMissing (normalize_colnames pt.headers)) "Title" - r0.length =
                colIdx (fillMissing (normalize_colnames pt.headers)) "Title" := by
              rw [hr0len]; omega
            rw [hsub, getD_map_const_of_lt (colIdx_lt_of_mem hTm)] at hcell
            exact absurd hcell (by simp)
  · intro hnn row hrow
    rw [hrows] at hrow
    obtain ⟨rl, hrl, hrowm⟩ := List.mem_flatten.mp hrow
    obtain ⟨fr, hfr, hrl_eq⟩ := List.mem_map.mp hrl
    rw [← hrl_eq] at hrowm
    obtain ⟨rs, hrs, hre⟩ := List.mem_map.mp hrowm
    obtain ⟨i, t, _, hd, hp⟩ := collectIdx_mem hcf hfr
    obtain ⟨country, pt, r4, r0, hc, hcne, ht, hr4, hr0, hr4e, hrse, hpred⟩ :=
      mem_frame_rows hp hrs
    obtain ⟨c2, pt2, hc2, _, _, ht2, hfcols, _, _⟩ := processTable_ok_some hp
    have hCmem : "Country" ∈ fr.cols := by rw [hfcols]; exact List.mem_cons_self _ _
    have hC0 : f.cols[0]? = some "Country" := by
      rw [hcols]; exact canon9_append_getElem_country _
    rw [← hre, hcols, colIdx_canon9_append_country, ← hcols, alignRow_getD hC0 hCmem]
    have hidx0 : colIdx fr.cols "Country" = 0 := by rw [hfcols]; exact colIdx_cons_eq _ _
    have hlen : 0 < r4.length := by rw [hr4e]; simp
    rw [hidx0, hrse, getD_map_of_lt (by rw [cleanRow_length]; exact hlen) "" Cell.nan]
    rw [cleanRow_getD hlen]
    have hr40 : r4.getD 0 Cell.nan = Cell.str country := by rw [hr4e]; rfl
    have hcnan : country ≠ "nan" := hnn i t hd country hc
    rw [hr40]
    obtain ⟨j, hh, hjd, hctext⟩ := resolveCountry_eq_some hc
    have hps : pstrip country = country := by
      rw [hctext]; exact get_headline_text_pstrip hh
    have hclean : cleanCell (Cell.str country) = country := by
      unfold cleanCell cellToString
      simp only [hps]
      rw [if_neg hcnan]
    by_cases hobj : colIsObj (stagedRows doc i country pt) 0
    · rw [if_pos hobj, hclean]
      exact hcne
    · rw [if_neg hobj]
      exact hcne
  · intro i t hd hbad
    exact processTable_bad_country t hbad

/-- Witness for C1 at `docC1`: the run succeeds, its table is rectangular
with a textual Title column and a country not named "nan", and both row
invariants hold for the produced frame. -/
theorem C1_output_invariant_witness :
    finalFrame docC1 = .ok frameC1 ∧
    (∀ row ∈ frameC1.rows, row.getD (colIdx frameC1.cols "Title") "" ≠ "") ∧
    (∀ row ∈ frameC1.rows, row.getD (colIdx frameC1.cols "Country") "" ≠ "") := by
  have hf : finalFrame docC1 = .ok frameC1 := by rfl
  have h := C1_output_invariant docC1 frameC1 hf
  refine ⟨hf, h.1 ?_, h.2.1 ?_⟩
  · intro i pt hj
    match i with
    | 0 => exact absurd hj (by simp [docC1])
    | 1 =>
      have hj' : some (Node.tbl (some (⟨[ColHeader.single "Title"],
          [[Cell.str "Moby"]]⟩ : ParsedTable))) = some (Node.tbl (some pt)) := hj
      injection hj' with h1
      injection h1 with h2
      injection h2 with h3
      rw [← h3]
      exact ⟨by decide, by decide⟩
    | (m + 2) => exact absurd hj (by simp [docC1])
  · intro i t hj c hc
    match i with
    | 0 => exact absurd hj (by simp [docC1])
    | 1 =>
      have hc' : some "Albania" = some c := hc
      injection hc' with h1
      rw [← h1]
      decide
    | (m + 2) => exact absurd hj (by simp [docC1])

/-- Counterexample for C1 as stated: with a country heading whose text is
literally `"nan"` the produced row's Country value is empty (`docC1x`),
and with a Title column consisting of one missing cell — parsed as a
non-object all-`NaN` column — the produced row's Title value is empty
(`docC1y`). -/
theorem C1_cex :
    (finalFrame docC1x = .ok frameC1x ∧
      (frameC1x.rows.getD 0 []).getD (colIdx frameC1x.cols "Country") "" = "" ∧
      frameC1x.rows ≠ []) ∧
    (finalFrame docC1y = .ok frameC1y ∧
      (frameC1y.rows.getD 0 []).getD (colIdx frameC1y.cols "Title") "" = "" ∧
      frameC1y.rows ≠ []) := by
  exact ⟨⟨by rfl, by rfl, by simp [frameC1x]⟩, ⟨by rfl, by rfl, by simp [frameC1y]⟩⟩

/-- C2 (amended).  For a table at position `i`: the resolver returns as
country the trimmed headline text of the nearest preceding `h2`, and
returns as subdivision the headline text of the nearest preceding `h3`
exactly when that `h3`'s own nearest preceding `h2` is structurally equal
(identical markup, BeautifulSoup `==`) to the country heading — node
identity is not required. -/
theorem C2_section_heading_resolver (doc : List Node) (i j k j2 : Nat)
    (hj2 : Heading) (hk3 : Heading) (hj2x : Heading)
    (hji : j < i) (hjh : doc[j]? = some (Node.h2 hj2))
    (hjn : ∀ m, j < m → m < i → matchesAt isH2 doc m = false)
    (hki : k < i) (hkh : doc[k]? = some (Node.h3 hk3))
    (hkn : ∀ m, k < m → m < i → matchesAt isH3 doc m = false)
    (hjk : j2 < k) (hjhx : doc[j2]? = some (Node.h2 hj2x))
    (hjnx : ∀ m, j2 < m → m < k → matchesAt isH2 doc m = false) :
    resolveCountry doc i = some (get_headline_text hj2) ∧
    (hj2x = hj2 → resolveSubdivision doc i = some (get_headline_text hk3)) ∧
    (hj2x ≠ hj2 → resolveSubdivision doc i = none) := by
  have hfj : findPrevH2 doc i = some j :=
    findPrevIdx_eq_some hji (by simp [matchesAt, hjh, isH2]) hjn
  have hfk : findPrevH3 doc i = some k :=
    findPrevIdx_eq_some hki (by simp [matchesAt, hkh, isH3]) hkn
  have hfjx : findPrevH2 doc k = some j2 :=
    findPrevIdx_eq_some hjk (by simp [matchesAt, hjhx, isH2]) hjnx
  have hhj : headingAt doc j = some hj2 := by simp [headingAt, hjh]
  have hhk : headingAt doc k = some hk3 := by simp [headingAt, hkh]
  have hhjx : headingAt doc j2 = some hj2x := by simp [headingAt, hjhx]
  refine ⟨?_, ?_, ?_⟩
  · unfold resolveCountry get_headline_textOpt
    rw [hfj]
    simp [hhj]
  · intro heq
    unfold resolveSubdivision
    rw [hfk]
    simp only [hfj, hfjx, Option.some_bind, hhj, hhjx, hhk, heq]
    simp [get_headline_textOpt]
  · intro hne
    unfold resolveSubdivision
    rw [hfk]
    simp only [hfj, hfjx, Option.some_bind, hhj, hhjx, hhk]
    rw [if_neg]
    simp only [Option.some.injEq]
    exact hne

/-- Witness for C2 at `docC2`: the table after the new "France" heading
gets country "France" and no subdivision, because "Quebec"'s own preceding
`h2` ("Canada") is not equal to the country heading. -/
theorem C2_section_heading_resolver_witness :
    resolveCountry docC2 3 = some "France" ∧ resolveSubdivision docC2 3 = none := by
  have h := C2_section_heading_resolver docC2 3 2 1 0
    ⟨some "France", "", ""⟩ ⟨some "Quebec", "", ""⟩ ⟨some "Canada", "", ""⟩
    (by decide) (by rfl) (by intro m h1 h2; omega)
    (by decide) (by rfl) (by intro m h1 h2; rw [show m = 2 by omega]; decide)
    (by decide) (by rfl) (by intro m h1 h2; omega)
  refine ⟨?_, h.2.2 (by decide)⟩
  have h1 := h.1
  rw [show get_headline_text ⟨some "France", "", ""⟩ = "France" from by decide] at h1
  exact h1

/-- Counterexample for C2 as stated: between two distinct but
byte-identical `h2` nodes the code accepts the `h3` of the earlier section
as subdivision (structural markup equality), while the claim's
node-identity rule would reject it.  By contrast, when the two headings
carry equal display text but different markup (distinct ids, `docC2z`),
BeautifulSoup `==` — and the model — reject the subdivision: the
conflation happens exactly at identical markup, not at equal text. -/
theorem C2_cex :
    (resolveSubdivision docC2x 3 = some "Sub" ∧
      subdivisionByNodeIdentity docC2x 3 = none ∧
      findPrevH2 docC2x 3 = some 2 ∧ findPrevH2 docC2x 1 = some 0) ∧
    (resolveSubdivision docC2z 3 = none ∧
      get_headline_text ⟨some "Alpha", "", "id=Alpha"⟩ =
        get_headline_text ⟨some "Alpha", "", "id=Alpha_2"⟩ ∧
      (⟨some "Alpha", "", "id=Alpha"⟩ : Heading) ≠ ⟨some "Alpha", "", "id=Alpha_2"⟩) := by
  refine ⟨⟨by decide, by decide, by decide, by decide⟩, by decide, by decide, by decide⟩

/-- C3 (amended).  For every accepted table lacking one of the seven
expected columns, the output still contains that column, but its value for
every row contributed by that table is the string `"<NA>"` (the textual
form of the `pd.NA` filler, which the cleanup replaces only for `"nan"`),
not the empty string. -/
theorem C3_missing_column_fill (doc : List Node) (i : Nat) (pt : ParsedTable) (fr : Frame)
    (col : String) (hcol : col ∈ expectedCols)
    (habs : col ∉ normalize_colnames pt.headers)
    (hrect : ∀ r ∈ pt.rows, r.length = pt.headers.length)
    (hp : processTable doc i (some pt) = .ok (some fr)) :
    col ∈ fr.cols ∧ ∀ r ∈ fr.rows, r.getD (colIdx fr.cols col) "" = "<NA>" := by
  obtain ⟨country, pt', hc, hcne, hcnc, ht, hfcols, hfnd, hfrows⟩ := processTable_ok_some hp
  injection ht with ht'
  subst ht'
  have hnc : (normalize_colnames pt.headers).contains col = false := by
    cases hcc : (normalize_colnames pt.headers).contains col with
    | false => rfl
    | true => exact absurd (contains_true_iff.mp hcc) habs
  have hcolm : col ∈ fillMissing (normalize_colnames pt.headers) :=
    List.mem_filter.mpr ⟨hcol, by rw [hnc]; rfl⟩
  have hmlt : colIdx (fillMissing (normalize_colnames pt.headers)) col <
      (fillMissing (normalize_colnames pt.headers)).length := colIdx_lt_of_mem hcolm
  have hcC : "Country" ≠ col := by
    intro he; rw [← he] at hcol; revert hcol; decide
  have hcS : "Subdivision" ≠ col := by
    intro he; rw [← he] at hcol; revert hcol; decide
  have hnlen : (normalize_colnames pt.headers).length = pt.headers.length := by
    simp [normalize_colnames]
  have hidx : colIdx fr.cols col =
      (normalize_colnames pt.headers).length +
        colIdx (fillMissing (normalize_colnames pt.headers)) col + 1 + 1 := by
    rw [hfcols, colIdx_cons_ne hcC, colIdx_cons_ne hcS]
    unfold fillExpectedCols
    rw [colIdx_append_of_not_mem _ habs]
  refine ⟨?_, ?_⟩
  · rw [hfcols]
    exact List.mem_cons_of_mem _ (List.mem_cons_of_mem _
      (List.mem_append_right _ hcolm))
  · intro r hr
    obtain ⟨country2, pt2, r4, r0, hc2, hcne2, ht2, hr4, hr0, hr4e, hrse, _⟩ :=
      mem_frame_rows hp hr
    injection ht2 with ht2e
    subst ht2e
    have hlen0 : r0.length = (normalize_colnames pt.headers).length := by
      rw [hnlen]; exact hrect r0 hr0
    have hr4len : colIdx fr.cols col < r4.length := by
      rw [hidx, hr4e]
      simp only [List.length_cons, List.length_append, List.length_map, hlen0]
      omega
    have hcell : r4.getD (colIdx fr.cols col) Cell.nan = Cell.NA := by
      rw [hidx, hr4e, List.getD_cons_succ, List.getD_cons_succ,
        List.getD_append_right _ _ _ _ (by rw [hlen0]; omega)]
      have hsub : (normalize_colnames pt.headers).length +
          colIdx (fillMissing (normalize_colnames pt.headers)) col - r0.length =
          colIdx (fillMissing (normalize_colnames pt.headers)) col := by
        rw [hlen0]; omega
      rw [hsub, getD_map_const_of_lt hmlt]
    have hobj : colIsObj (stagedRows doc i country2 pt) (colIdx fr.cols col) = true :=
      colIsObj_of_text hr4 (by rw [hcell]; rfl)
    rw [hrse, getD_map_of_lt (by rw [cleanRow_length]; exact hr4len) "" Cell.nan,
      cleanRow_getD hr4len, if_pos hobj, hcell]
    decide

/-- Witness for C3 at `docC3`: the table lacks a "Notes" column; the
produced frame contains "Notes" and fills it with `"<NA>"`. -/
theorem C3_missing_column_fill_witness :
    processTable docC3 1 (some ⟨[ColHeader.single "Title"], [[Cell.str "Dune"]]⟩) =
      .ok (some frameC3) ∧
    "Notes" ∈ frameC3.cols ∧
    (∀ r ∈ frameC3.rows, r.getD (colIdx frameC3.cols "Notes") "" = "<NA>") := by
  have hp : processTable docC3 1 (some ⟨[ColHeader.single "Title"], [[Cell.str "Dune"]]⟩) =
      .ok (some frameC3) := by rfl
  have h := C3_missing_column_fill docC3 1
    ⟨[ColHeader.single "Title"], [[Cell.str "Dune"]]⟩ frameC3 "Notes"
    (by decide) (by decide) (by decide) hp
  exact ⟨hp, h.1, h.2⟩

/-- Counterexample for C3 as stated: the table of `docC3x` has no "Notes"
column; the final output contains the "Notes" column, but its value in the
contributed row is `"<NA>"`, which is not empty. -/
theorem C3_cex :
    finalFrame docC3x = .ok frameC3x ∧
    (frameC3x.rows.getD 0 []).getD (colIdx frameC3x.cols "Notes") "" = "<NA>" ∧
    (frameC3x.rows.getD 0 []).getD (colIdx frameC3x.cols "Notes") "" ≠ "" := by
  refine ⟨by rfl, by rfl, by decide⟩

/-- C4.  If zero tables survive filtering — in particular if the document
contains no wikitable node at all — the run aborts with the explicit
diagnostic (`Except.error`, i.e. non-zero exit and no CSV written);
otherwise the CSV is produced in full. -/
theorem C4_zero_tables_fatal (doc : List Node) :
    ((∀ (i : Nat) (t : Option ParsedTable), doc[i]? ≠ some (Node.tbl t)) →
      runMain doc = .error noTablesMsg) ∧
    (collectFrames doc = .ok [] → runMain doc = .error noTablesMsg) ∧
    (∀ fs, collectFrames doc = .ok fs → fs ≠ [] → ∃ csv, runMain doc = .ok csv) := by
  have hsecond : collectFrames doc = .ok [] → runMain doc = .error noTablesMsg := by
    intro h0
    unfold runMain finalFrame
    rw [h0]
    rfl
  refine ⟨?_, hsecond, ?_⟩
  · intro hno
    exact hsecond (collectIdx_no_tables (fun i _ t => hno i t))
  · intro fs hc hne
    have hff := finalFrame_ok_of hc hne (canon9_in_concatCols hc hne)
    refine ⟨toCsv
      { cols := canon9 ++ (concatCols fs).filter (fun c => !(canon9.contains c)),
        rows := (fs.map (fun fr => fr.rows.map (fun r => alignRow fr.cols r
          (canon9 ++ (concatCols fs).filter (fun c => !(canon9.contains c)))))).flatten }, ?_⟩
    unfold runMain
    rw [hff]
    rfl

/-- Witness for C4: the empty document has no tables and aborts with the
diagnostic; `docC4` has one surviving table and yields a CSV. -/
theorem C4_zero_tables_fatal_witness :
    runMain ([] : List Node) = .error noTablesMsg ∧
    ∃ csv, runMain docC4 = .ok csv := by
  constructor
  · exact (C4_zero_tables_fatal []).1 (by intro i t; simp)
  · exact (C4_zero_tables_fatal docC4).2.2
      [⟨["Country", "Subdivision", "Title", "Author(s)", "Year published", "Year banned",
         "Year unbanned", "Type", "Notes"],
        [["Denmark", "<NA>", "Lolita", "<NA>", "<NA>", "<NA>", "<NA>", "<NA>", "<NA>"]]⟩]
      (by rfl) (by simp)

/-- C5.  A table on which `pd.read_html` raises is skipped silently: it
contributes no frame and no error, and the run's result equals the result
of processing all the other tables. -/
theorem C5_parse_failure_skipped (doc : List Node) (i : Nat)
    (hd : doc[i]? = some (Node.tbl none)) :
    processTable doc i none = .ok none ∧
    collectFrames doc = collectIdx doc ((List.range doc.length).filter (fun m => m != i)) := by
  refine ⟨processTable_parse_failure doc i, ?_⟩
  unfold collectFrames
  exact (collectIdx_filter_ne (fun t hdt => by
    rw [hd] at hdt
    injection hdt with h1
    injection h1 with h2
    rw [← h2]
    exact processTable_parse_failure doc i) (List.range doc.length)).symm

/-- Witness for C5 at `docC5`: the unparseable table at position 1 is
skipped and the second table still produces its frame. -/
theorem C5_parse_failure_skipped_witness :
    processTable docC5 1 none = .ok none ∧
    collectFrames docC5 = collectIdx docC5 ((List.range docC5.length).filter (fun m => m != 1)) ∧
    collectFrames docC5 =
      .ok [⟨["Country", "Subdivision", "Title", "Author(s)", "Year published", "Year banned",
             "Year unbanned", "Type", "Notes"],
            [["Egypt", "<NA>", "Nana", "<NA>", "<NA>", "<NA>", "<NA>", "<NA>", "<NA>"]]⟩] := by
  have h := C5_parse_failure_skipped docC5 1 (by rfl)
  exact ⟨h.1, h.2, by rfl⟩

/-- C6.  Column-name normalization is an exact-match lookup after
flattening and trimming: "Authors" and "Author(s)" map to "Author(s)",
"Year of publication" and "Publication year" map to "Year published",
"Reason" and "Reasons" map to "Notes", "Country" maps to
"Country of origin"; a trimmed header not in the lookup passes through
unchanged; a tuple header is replaced by its first non-empty part, else
its last part. -/
theorem C6_normalize_colnames :
    (normalize_colnames [ColHeader.single "Authors"] = ["Author(s)"] ∧
     normalize_colnames [ColHeader.single "Author(s)"] = ["Author(s)"]) ∧
    (normalize_colnames [ColHeader.single "Year of publication"] = ["Year published"] ∧
     normalize_colnames [ColHeader.single "Publication year"] = ["Year published"]) ∧
    (normalize_colnames [ColHeader.single "Reason"] = ["Notes"] ∧
     normalize_colnames [ColHeader.single "Reasons"] = ["Notes"]) ∧
    normalize_colnames [ColHeader.single "Country"] = ["Country of origin"] ∧
    (∀ s : String, renPairs.lookup (pstrip s) = none →
      normalize_colnames [ColHeader.single s] = [pstrip s]) ∧
    (∀ (pre : List String) (x : String) (post : List String),
      (∀ y ∈ pre, y = "") → x ≠ "" →
      flattenHeader (ColHeader.multi (pre ++ x :: post)) = x) ∧
    (∀ parts : List String, (∀ y ∈ parts, y = "") →
      flattenHeader (ColHeader.multi parts) = parts.getLastD "") := by
  refine ⟨⟨by decide, by decide⟩, ⟨by decide, by decide⟩, ⟨by decide, by decide⟩,
    by decide, ?_, ?_, ?_⟩
  · intro s hs
    simp [normalize_colnames, normalizeOne, flattenHeader, hs]
  · intro pre x post hpre hx
    have hfind : (pre ++ x :: post).find? (fun y => y != "") = some x := by
      induction pre with
      | nil =>
        rw [List.nil_append]
        exact List.find?_cons_of_pos _ (by simpa using hx)
      | cons y pre ih =>
        have hy : y = "" := hpre y (List.mem_cons_self y pre)
        rw [List.cons_append, List.find?_cons_of_neg _ (by simp [hy])]
        exact ih (fun z hz => hpre z (List.mem_cons_of_mem y hz))
    simp [flattenHeader, hfind]
  · intro parts hparts
    have hfind : parts.find? (fun y => y != "") = none := by
      rw [List.find?_eq_none]
      intro y hy
      simp [hparts y hy]
    simp [flattenHeader, hfind]

/-- Witness for C6: a header unknown to the lookup passes through in
trimmed form; a tuple header takes its first non-empty part, else its
last part. -/
theorem C6_normalize_colnames_witness :
    normalize_colnames [ColHeader.single " Banned in "] = ["Banned in"] ∧
    flattenHeader (ColHeader.multi ["", "Title"]) = "Title" ∧
    flattenHeader (ColHeader.multi ["", ""]) = "" := by
  have h := C6_normalize_colnames
  refine ⟨?_, ?_, ?_⟩
  · have hpass := h.2.2.2.2.1 " Banned in " (by decide)
    rw [show pstrip " Banned in " = "Banned in" from by decide] at hpass
    exact hpass
  · exact h.2.2.2.2.2.1 [""] "Title" [] (by intro y hy; simpa using hy) (by decide)
  · exact h.2.2.2.2.2.2 ["", ""] (by intro y hy; simpa using hy)

/-- C7.  The aggregator concatenates the surviving frames in document
order, the output columns are the nine canonical columns first in fixed
order followed by every other encountered column in first-seen order, and
the CSV is the serialization of exactly that frame (header row, no index
column). -/
theorem C7_aggregation (doc : List Node) (fs : List Frame)
    (hc : collectFrames doc = .ok fs) (hne : fs ≠ []) :
    ∃ f, finalFrame doc = .ok f ∧
      f.cols = canon9 ++ (concatCols fs).filter (fun c => !(canon9.contains c)) ∧
      f.rows = (fs.map (fun fr => fr.rows.map (fun r => alignRow fr.cols r f.cols))).flatten ∧
      runMain doc = .ok (toCsv f) := by
  have hff := finalFrame_ok_of hc hne (canon9_in_concatCols hc hne)
  exact ⟨_, hff, rfl, rfl, by unfold runMain; rw [hff]; rfl⟩

/-- Witness for C7 at `docC7`: the extra "Publisher" column follows the
nine canonical columns. -/
theorem C7_aggregation_witness :
    (∃ f, finalFrame docC7 = .ok f ∧
      f.cols = canon9 ++ (concatCols fsC7).filter (fun c => !(canon9.contains c)) ∧
      f.rows = (fsC7.map (fun fr => fr.rows.map (fun r => alignRow fr.cols r f.cols))).flatten ∧
      runMain docC7 = .ok (toCsv f)) ∧
    canon9 ++ (concatCols fsC7).filter (fun c => !(canon9.contains c)) =
      canon9 ++ ["Publisher"] := by
  exact ⟨C7_aggregation docC7 fsC7 (by rfl) (by simp [fsC7]), by rfl⟩

/-- C8.  The pipeline after the fetch is a pure function of the parsed
document: byte-identical input markup (hence equal parsed documents)
yields byte-identical CSV output. -/
theorem C8_deterministic (d1 d2 : List Node) (h : d1 = d2) :
    runMain d1 = runMain d2 := by
  rw [h]

/-- Witness for C8 at `docC8`. -/
theorem C8_deterministic_witness : runMain docC8 = runMain docC8 :=
  C8_deterministic docC8 docC8 rfl

/-- C9.  Because the Country column is prepended to every row before row
cleanup, `dropna(how="all")` is the identity on every per-table record
set: after the two inserts, no row consists entirely of missing values. -/
theorem C9_dropna_identity (country : String) (sub : Cell)
    (cols1 cols2 cols3 : List String) (rows1 rows2 rows3 : List (List Cell))
    (_h1 : insertCol "Subdivision" sub cols1 rows1 = some (cols2, rows2))
    (h2 : insertCol "Country" (Cell.str country) cols2 rows2 = some (cols3, rows3)) :
    dropEmptyRows rows3 = rows3 := by
  obtain ⟨_, he2⟩ := insertCol_eq_some h2
  simp only [Prod.mk.injEq] at he2
  obtain ⟨_, hr3⟩ := he2
  subst hr3
  unfold dropEmptyRows
  rw [List.filter_eq_self]
  intro r hr
  obtain ⟨r2, _, hre⟩ := List.mem_map.mp hr
  rw [← hre]
  simp [cellIsNA]

/-- Witness for C9: a row that is all-missing apart from the prepended
Country cell survives the dropna step. -/
theorem C9_dropna_identity_witness :
    dropEmptyRows [[Cell.str "India", Cell.NA, Cell.nan]] =
      [[Cell.str "India", Cell.NA, Cell.nan]] :=
  C9_dropna_identity "India" Cell.NA ["Title"] ["Subdivision", "Title"]
    ["Country", "Subdivision", "Title"] [[Cell.nan]] [[Cell.NA, Cell.nan]]
    [[Cell.str "India", Cell.NA, Cell.nan]] (by rfl) (by rfl)

/-- Auxiliary for C10: no value of the rename lookup is "Country". -/
theorem lookup_renPairs_ne_country {s v : String}
    (h : renPairs.lookup s = some v) : v ≠ "Country" := by
  obtain ⟨l1, l2, hl, _⟩ := List.lookup_eq_some_iff.mp h
  have hmem : (s, v) ∈ renPairs := by
    rw [hl]
    exact List.mem_append_right _ (List.mem_cons_self _ _)
  have hall : ∀ p ∈ renPairs, p.2 ≠ "Country" := by decide
  exact hall (s, v) hmem

/-- Auxiliary for C10: normalization never produces the label "Country". -/
theorem normalizeOne_ne_country (c : ColHeader) : normalizeOne c ≠ "Country" := by
  show (renPairs.lookup (pstrip (flattenHeader c))).getD (pstrip (flattenHeader c)) ≠ "Country"
  cases hl : renPairs.lookup (pstrip (flattenHeader c)) with
  | none =>
    rw [Option.getD_none]
    intro he
    rw [he] at hl
    exact absurd hl (by decide)
  | some v =>
    rw [Option.getD_some]
    exact lookup_renPairs_ne_country hl

/-- C10.  After header normalization no column is named "Country" (a
source "Country" header is renamed to "Country of origin"), so inserting
the resolved Country column at position 0 never hits the duplicate-column
`ValueError`. -/
theorem C10_country_insert_safe (headers : List ColHeader) :
    "Country" ∉ normalize_colnames headers ∧
    (∀ (sub : Cell) (rows : List (List Cell)) (cols2 : List String)
       (rows2 : List (List Cell)) (cv : Cell),
      insertCol "Subdivision" sub (fillExpectedCols (normalize_colnames headers)) rows =
        some (cols2, rows2) →
      insertCol "Country" cv cols2 rows2 ≠ none) := by
  have hnorm : "Country" ∉ normalize_colnames headers := by
    intro hmem
    obtain ⟨c, _, hce⟩ := List.mem_map.mp hmem
    exact normalizeOne_ne_country c hce
  refine ⟨hnorm, ?_⟩
  intro sub rows cols2 rows2 cv h1
  obtain ⟨_, he⟩ := insertCol_eq_some h1
  simp only [Prod.mk.injEq] at he
  obtain ⟨hc2, _⟩ := he
  have hnc : "Country" ∉ cols2 := by
    rw [hc2]
    intro hmem
    rcases List.mem_cons.mp hmem with he' | hmem'
    · exact absurd he' (by decide)
    · unfold fillExpectedCols at hmem'
      rcases List.mem_append.mp hmem' with hm | hm
      · exact hnorm hm
      · have := List.mem_of_mem_filter hm
        revert this
        decide
  unfold insertCol
  rw [if_neg (by simpa using hnc)]
  simp

/-- Witness for C10: inserting Country succeeds on a table whose source
headers include "Country" (renamed to "Country of origin"). -/
theorem C10_country_insert_safe_witness :
    "Country" ∉ normalize_colnames [ColHeader.single "Country"] ∧
    insertCol "Country" (Cell.str "Japan")
      ["Subdivision", "Country of origin", "Title", "Author(s)", "Year published",
       "Year banned", "Year unbanned", "Type", "Notes"] [] ≠ none := by
  have h := C10_country_insert_safe [ColHeader.single "Country"]
  refine ⟨h.1, ?_⟩
  exact h.2 Cell.NA []
    ["Subdivision", "Country of origin", "Title", "Author(s)", "Year published",
     "Year banned", "Year unbanned", "Type", "Notes"] [] (Cell.str "Japan") (by rfl)

end Claims

end BannedBooks
